import Mathlib

/-!
Verification of the hooksim repository: a shallow embedding of the
incremental event-reconciliation engine (`poller/poller.go`), the webhook
dispatch and signing pipeline (`webhook/server.go`, `webhook/trigger.go`),
the configuration normalization (`config/config.go`) and the cursor
persistence format, together with proofs of the behavioural properties
stated in the design document.
-/

namespace Hooksim

/-! ## Data model (poller.go)

`LastAccess` mirrors `poller.LastAccess`: the conditional-request validator
(`ETag`) and the high-water marker (`EventID`, a `uint64`; the code only
compares and maxes it, so `Nat` is a faithful carrier). -/

structure LastAccess where
  etag : String
  eventID : Nat
  deriving DecidableEq, Repr

/-- One record of the issue-event history, as consumed by
`parseResponse`: `event["id"]`, `event["event"]`, and the raw
`event["issue"]` / `event["actor"]` payloads (kept as opaque strings). -/
structure Event where
  id : Nat
  eventType : String
  issue : String
  actor : String
  deriving DecidableEq, Repr

/-- The body of one HTTP response as seen by `parseResponse`:
either bytes that fail `json.Unmarshal` or a decoded event list. -/
inductive Body where
  | malformed
  | events (es : List Event)
  deriving DecidableEq, Repr

/-- The result of one `client.Do` call in `pollRepo`: a transport error,
a 304 Not Modified, or a 200 with an `ETag` header, an optional parsed
`Link` header (the max page number, as extracted by `getMaxPage`), and a
body. -/
inductive FetchResult where
  | transportErr
  | notModified
  | ok (etag : String) (link : Option Nat) (body : Body)
  deriving DecidableEq, Repr

/-- Result of scanning one page in `parseResponse`: the
`foundLastAccess` flag, the running maximum id (`latestID`), the
collected renamed events (`pairs`, in scan order), and — as
instrumentation for stating the cursor invariant — the ids of the
records actually examined (`scanned`, including the record that
triggered the stop condition). -/
structure ScanResult where
  found : Bool
  latest : Nat
  pairs : List Event
  scanned : List Nat
  deriving DecidableEq, Repr

/-- The record-scanning loop of `parseResponse` (poller.go:173-199).
For each record: `latestID` is updated first; then, if
`lastID >= curID || lastID == 0`, the loop breaks; otherwise a
`"renamed"` record is collected. -/
def scanEvents (lastID : Nat) : List Event → ScanResult
  | [] => ⟨false, 0, [], []⟩
  | e :: rest =>
    if lastID ≥ e.id ∨ lastID = 0 then
      ⟨true, e.id, [], [e.id]⟩
    else
      let r := scanEvents lastID rest
      ⟨r.found, max e.id r.latest,
        if e.eventType = "renamed" then e :: r.pairs else r.pairs,
        e.id :: r.scanned⟩

/-- `parseResponse` (poller.go:156-202): reading/unmarshalling failures
yield an error (`none`); otherwise the page is scanned. -/
def parseResponse (lastID : Nat) : Body → Option ScanResult
  | .malformed => none
  | .events es => some (scanEvents lastID es)

/-- Everything observable about one `pollRepo` call:
* `cursor`   — the in-memory `p.Repos[owner][repo]` value afterwards
               (unchanged on the `return nil` paths),
* `stored`   — whether line 146/147 ran (cursor overwritten and persisted),
* `pairs`    — the returned `[]webhook.IssueActorPair`, kept as the source
               events so their markers remain statable,
* `fetches`  — number of `client.Do` calls issued,
* `scanned`  — ids of all records examined across all parsed pages,
* `acquired` — page numbers whose response body was obtained,
* `closed`   — page numbers whose response body was `Close`d. -/
structure PollOutcome where
  cursor : LastAccess
  stored : Bool
  pairs : List Event
  fetches : Nat
  scanned : List Nat
  acquired : List Nat
  closed : List Nat
  deriving DecidableEq, Repr

/-- What one iteration of the `pollRepo` loop decides before any further
fetch: either the loop ends with a definite outcome (`done`), or the
current body has been closed and the next page must be fetched (`next`,
carrying the updated `maxPage`, `latestID`, `scanned` and `closed`). -/
inductive StepRes where
  | done (o : PollOutcome)
  | next (maxPage latestID : Nat) (scanned cls : List Nat)
  deriving Repr

/-- One iteration of the loop body of `pollRepo` (poller.go:102-129):
parse the current response, update `maxPage` from the `Link` header (on
the first response that has one), fold the page's maximum id into
`latestID`, then either break — appending the page's pairs and storing
the cursor — on `foundLastAccess`/zero marker, or close the body,
advance the page counter and stop when past `maxPage`. -/
def pollIter (la : LastAccess) (etag0 : String) (body : Body) (link : Option Nat)
    (page maxPage latestID fetches : Nat) (scanned acq cls : List Nat) : StepRes :=
  match parseResponse la.eventID body with
  | none =>
    -- parse error: `return nil`; the current body is NOT closed
    .done ⟨la, false, [], fetches, scanned, acq, cls⟩
  | some r =>
    let maxPage' := match link with
      | some m => if maxPage = 0 then m else maxPage
      | none => maxPage
    let latestID' := max latestID r.latest
    let scanned' := scanned ++ r.scanned
    if r.found ∨ la.eventID = 0 then
      -- `break` with `pairs` appended; cursor written; body NOT closed
      .done ⟨⟨etag0, latestID'⟩, true, r.pairs, fetches, scanned', acq, cls⟩
    else
      -- close the current body, advance the page counter
      if page + 1 > maxPage' then
        -- `break`; cursor written with no pairs collected
        .done ⟨⟨etag0, latestID'⟩, true, [], fetches, scanned', acq, cls ++ [page]⟩
      else
        .next maxPage' latestID' scanned' (cls ++ [page])

/-- The main loop of `pollRepo` (poller.go:102-142), entered with the
page-1 response in hand.  `la` is the cursor at the start of the cycle,
`etag0` the `ETag` captured from page 1, `body`/`link` the current
response, `rest` the responses the server would give to the subsequent
page fetches, `page`/`maxPage`/`latestID` the loop variables. -/
def pollLoop (la : LastAccess) (etag0 : String) :
    List FetchResult → Body → Option Nat → Nat → Nat → Nat → Nat →
    List Nat → List Nat → List Nat → PollOutcome
  | [], body, link, page, maxPage, latestID, fetches, scanned, acq, cls =>
    match pollIter la etag0 body link page maxPage latestID fetches scanned acq cls with
    | .done o => o
    | .next _ _ scanned' cls' =>
      -- fetching a page the server never answers: transport error
      ⟨la, false, [], fetches + 1, scanned', acq, cls'⟩
  | fr :: rest', body, link, page, maxPage, latestID, fetches, scanned, acq, cls =>
    match pollIter la etag0 body link page maxPage latestID fetches scanned acq cls with
    | .done o => o
    | .next maxPage' latestID' scanned' cls' =>
      match fr with
      | .transportErr => ⟨la, false, [], fetches + 1, scanned', acq, cls'⟩
      | .notModified =>
        -- status is not re-checked for pages ≥ 2; the empty 304 body
        -- then fails to unmarshal in parseResponse
        pollLoop la etag0 rest' .malformed none (page + 1) maxPage'
          latestID' (fetches + 1) scanned' (acq ++ [page + 1]) cls'
      | .ok _ link' body' =>
        -- ETag of later pages is ignored (captured from page 1 only)
        pollLoop la etag0 rest' body' link' (page + 1) maxPage'
          latestID' (fetches + 1) scanned' (acq ++ [page + 1]) cls'

/-- `pollRepo` (poller.go:69-154).  `world` lists the responses the
server gives to the successive page fetches (`world[0]` answers the
initial request, which carries `If-None-Match` when `la.etag ≠ ""`). -/
def pollRepo (la : LastAccess) (world : List FetchResult) : PollOutcome :=
  match world with
  | [] => ⟨la, false, [], 1, [], [], []⟩
  | .transportErr :: _ => ⟨la, false, [], 1, [], [], []⟩
  | .notModified :: _ => ⟨la, false, [], 1, [], [1], [1]⟩
  | .ok etag link body :: rest =>
      pollLoop la etag rest body link 1 0 0 1 [] [1] []

/-- One poll cycle per element of `ws`, threading the in-memory cursor
exactly as `Poller.Run` does; each trace entry records the cursor at the
start of the cycle and the events emitted during it. -/
def runCycles (la : LastAccess) : List (List FetchResult) → List (LastAccess × List Event)
  | [] => []
  | w :: ws => (la, (pollRepo la w).pairs) :: runCycles (pollRepo la w).cursor ws

/-! ## Lemmas about the page scan -/

theorem scanEvents_pairs_gt (lastID : Nat) (es : List Event) (e : Event)
    (h : e ∈ (scanEvents lastID es).pairs) : lastID < e.id ∧ lastID ≠ 0 := by
  induction es with
  | nil => simp [scanEvents] at h
  | cons x rest ih =>
    simp only [scanEvents] at h
    split at h
    · simp at h
    · next hc =>
      push_neg at hc
      by_cases hr : x.eventType = "renamed"
      · simp only [hr, if_pos] at h
        rcases List.mem_cons.mp h with h | h
        · subst h; exact ⟨hc.1, hc.2⟩
        · exact ih h
      · simp only [hr, if_neg, if_false] at h
        exact ih h

theorem scanEvents_pairs_le_latest (lastID : Nat) (es : List Event) (e : Event)
    (h : e ∈ (scanEvents lastID es).pairs) :
    e.id ≤ (scanEvents lastID es).latest := by
  induction es with
  | nil => simp [scanEvents] at h
  | cons x rest ih =>
    simp only [scanEvents] at h ⊢
    split at h
    · simp at h
    · split
      · next hmem hc => exact absurd hc hmem
      · simp only at h ⊢
        by_cases hr : x.eventType = "renamed"
        · simp only [hr, if_pos] at h
          rcases List.mem_cons.mp h with h | h
          · subst h; exact le_max_left _ _
          · exact le_trans (ih h) (le_max_right _ _)
        · simp only [hr, if_neg, if_false] at h
          exact le_trans (ih h) (le_max_right _ _)

theorem scanEvents_latest_eq (lastID : Nat) (es : List Event) :
    (scanEvents lastID es).latest = (scanEvents lastID es).scanned.foldr max 0 := by
  induction es with
  | nil => simp [scanEvents]
  | cons x rest ih =>
    simp only [scanEvents]
    split
    · simp
    · simp [ih]

/-- Generic fact: folding `max` from `0` bounds every member. -/
theorem mem_le_foldr_max (l : List Nat) (m : Nat) (h : m ∈ l) :
    m ≤ l.foldr max 0 := by
  induction l with
  | nil => simp at h
  | cons x rest ih =>
    rcases List.mem_cons.mp h with h | h
    · subst h; exact le_max_left _ _
    · exact le_trans (ih h) (le_max_right _ _)

theorem foldr_max_eq (a b : List Nat) :
    List.foldr max (List.foldr max 0 b) a = max (a.foldr max 0) (b.foldr max 0) := by
  induction a with
  | nil => simp
  | cons x rest ih => simp [ih, Nat.max_assoc]

theorem foldr_max_append (a b : List Nat) :
    (a ++ b).foldr max 0 = max (a.foldr max 0) (b.foldr max 0) := by
  rw [List.foldr_append, foldr_max_eq]

/-! ## Invariants of the poll loop -/

/-- The conjunction of invariants `pollRepo` guarantees about one call:
emitted events are strictly newer than the cursor at the start (and
nothing is emitted on a first-ever poll where the marker is zero);
emitted markers are bounded by the final cursor marker; a stored cursor
marker is exactly the running maximum of every observed marker; and all
response bodies except possibly the most recently acquired one have been
closed. -/
def PollInv (la : LastAccess) (o : PollOutcome) : Prop :=
  (∀ e ∈ o.pairs, la.eventID < e.id ∧ la.eventID ≠ 0) ∧
  (∀ e ∈ o.pairs, e.id ≤ o.cursor.eventID) ∧
  (o.stored = true → o.cursor.eventID = o.scanned.foldr max 0) ∧
  (o.acquired = o.closed ∨ ∃ b, o.acquired = o.closed ++ [b])

theorem pollIter_inv (la : LastAccess) (etag0 : String) (body : Body) (link : Option Nat)
    (page maxPage latestID fetches : Nat) (scanned acq cls : List Nat)
    (h1 : latestID = scanned.foldr max 0) (h2 : acq = cls ++ [page]) :
    (∀ o, pollIter la etag0 body link page maxPage latestID fetches scanned acq cls = .done o →
      PollInv la o) ∧
    (∀ mp lid sc cl,
      pollIter la etag0 body link page maxPage latestID fetches scanned acq cls = .next mp lid sc cl →
      lid = sc.foldr max 0 ∧ acq = cl) := by
  cases body with
  | malformed =>
    simp only [pollIter, parseResponse]
    constructor
    · intro o ho
      injection ho with ho
      subst ho
      exact ⟨by simp, by simp, by simp, Or.inr ⟨page, h2⟩⟩
    · intro mp lid sc cl h
      cases h
  | events es =>
    simp only [pollIter, parseResponse]
    generalize (match link with
      | some m => if maxPage = 0 then m else maxPage
      | none => maxPage) = mp'
    split
    · constructor
      · intro o ho
        injection ho with ho
        subst ho
        refine ⟨fun e he => scanEvents_pairs_gt _ _ _ he, fun e he => ?_, fun _ => ?_, Or.inr ⟨page, h2⟩⟩
        · exact le_trans (scanEvents_pairs_le_latest _ _ _ he) (le_max_right _ _)
        · simp [foldr_max_append, foldr_max_eq, h1, scanEvents_latest_eq]
      · intro mp lid sc cl h
        cases h
    · split
      · constructor
        · intro o ho
          injection ho with ho
          subst ho
          exact ⟨by simp, by simp,
            fun _ => by simp [foldr_max_append, foldr_max_eq, h1, scanEvents_latest_eq],
            Or.inl (by simp [h2])⟩
        · intro mp lid sc cl h
          cases h
      · constructor
        · intro o ho
          cases ho
        · intro mp lid sc cl h
          injection h with e1 e2 e3 e4
          subst e1; subst e2; subst e3; subst e4
          exact ⟨by simp [foldr_max_append, foldr_max_eq, h1, scanEvents_latest_eq], h2⟩

theorem pollLoop_inv (la : LastAccess) (etag0 : String) (rest : List FetchResult) :
    ∀ (body : Body) (link : Option Nat) (page maxPage latestID fetches : Nat)
      (scanned acq cls : List Nat),
      latestID = scanned.foldr max 0 →
      acq = cls ++ [page] →
      PollInv la (pollLoop la etag0 rest body link page maxPage latestID fetches scanned acq cls) := by
  induction rest with
  | nil =>
    intro body link page maxPage latestID fetches scanned acq cls h1 h2
    rw [pollLoop]
    cases hit : pollIter la etag0 body link page maxPage latestID fetches scanned acq cls with
    | done o =>
      exact (pollIter_inv la etag0 body link page maxPage latestID fetches scanned acq cls h1 h2).1 o hit
    | next mp lid sc cl =>
      obtain ⟨hl, ha⟩ :=
        (pollIter_inv la etag0 body link page maxPage latestID fetches scanned acq cls h1 h2).2
          mp lid sc cl hit
      exact ⟨by simp, by simp, by simp, Or.inl (by simp [ha])⟩
  | cons fr rest' ih =>
    intro body link page maxPage latestID fetches scanned acq cls h1 h2
    rw [pollLoop]
    cases hit : pollIter la etag0 body link page maxPage latestID fetches scanned acq cls with
    | done o =>
      exact (pollIter_inv la etag0 body link page maxPage latestID fetches scanned acq cls h1 h2).1 o hit
    | next mp lid sc cl =>
      obtain ⟨hl, ha⟩ :=
        (pollIter_inv la etag0 body link page maxPage latestID fetches scanned acq cls h1 h2).2
          mp lid sc cl hit
      cases fr with
      | transportErr =>
        exact ⟨by simp, by simp, by simp, Or.inl (by simp [ha])⟩
      | notModified =>
        exact ih _ _ _ _ _ _ _ _ _ hl (by rw [ha])
      | ok etg lnk bdy =>
        exact ih _ _ _ _ _ _ _ _ _ hl (by rw [ha])

theorem pollRepo_inv (la : LastAccess) (world : List FetchResult) :
    PollInv la (pollRepo la world) := by
  cases world with
  | nil => exact ⟨by simp [pollRepo], by simp [pollRepo], by simp [pollRepo], Or.inl (by simp [pollRepo])⟩
  | cons fr rest =>
    cases fr with
    | transportErr =>
      exact ⟨by simp [pollRepo], by simp [pollRepo], by simp [pollRepo], Or.inl (by simp [pollRepo])⟩
    | notModified =>
      exact ⟨by simp [pollRepo], by simp [pollRepo], by simp [pollRepo], Or.inl (by simp [pollRepo])⟩
    | ok etg lnk bdy =>
      exact pollLoop_inv la etg rest bdy lnk 1 0 0 1 [] [1] [] (by simp) (by simp)

/-! ## Lemmas about sequences of poll cycles -/

theorem runCycles_length (la : LastAccess) (ws : List (List FetchResult)) :
    (runCycles la ws).length = ws.length := by
  induction ws generalizing la with
  | nil => rfl
  | cons w ws ih => simp [runCycles, ih]

theorem runCycles_getD_fst_zero (c : LastAccess) (ws : List (List FetchResult))
    (hne : ws ≠ []) :
    ((runCycles c ws).getD 0 (⟨"", 0⟩, [])).1 = c := by
  cases ws with
  | nil => exact absurd rfl hne
  | cons w ws' => simp [runCycles]

/-- Whatever a cycle emits is bounded by the cursor at the start of the
next cycle in the trace. -/
theorem runCycles_emit_le_next (ws : List (List FetchResult)) :
    ∀ (la : LastAccess) (k : Nat) (e : Event),
      k + 1 < (runCycles la ws).length →
      e ∈ ((runCycles la ws).getD k (⟨"", 0⟩, [])).2 →
      e.id ≤ ((runCycles la ws).getD (k + 1) (⟨"", 0⟩, [])).1.eventID := by
  induction ws with
  | nil => intro la k e hk _; simp [runCycles] at hk
  | cons w ws' ih =>
    intro la k e hk he
    cases k with
    | zero =>
      simp only [runCycles, List.getD_cons_zero, List.getD_cons_succ] at he ⊢
      have hne : ws' ≠ [] := by
        intro h
        rw [h] at hk
        simp [runCycles] at hk
      rw [runCycles_getD_fst_zero _ _ hne]
      exact (pollRepo_inv la w).2.1 e he
    | succ k' =>
      simp only [runCycles, List.getD_cons_succ] at he ⊢
      exact ih _ k' e (by simpa [runCycles] using hk) he

/-- Whatever a cycle emits is strictly newer than the cursor at the
start of that cycle. -/
theorem runCycles_emit_gt_start (ws : List (List FetchResult)) :
    ∀ (la : LastAccess) (k : Nat) (e : Event),
      e ∈ ((runCycles la ws).getD k (⟨"", 0⟩, [])).2 →
      ((runCycles la ws).getD k (⟨"", 0⟩, [])).1.eventID < e.id := by
  induction ws with
  | nil => intro la k e he; simp [runCycles] at he
  | cons w ws' ih =>
    intro la k e he
    cases k with
    | zero =>
      simp only [runCycles, List.getD_cons_zero] at he ⊢
      exact ((pollRepo_inv la w).1 e he).1
    | succ k' =>
      simp only [runCycles, List.getD_cons_succ] at he ⊢
      exact ih _ k' e he

/-- Chaining a step-wise monotone sequence. -/
theorem mono_chain (g : Nat → Nat) (len : Nat)
    (h : ∀ k, k + 1 < len → g k ≤ g (k + 1)) :
    ∀ i j, i ≤ j → j < len → g i ≤ g j := by
  intro i j hij hj
  induction j with
  | zero =>
    have : i = 0 := Nat.le_zero.mp hij
    simp [this]
  | succ j' ihj =>
    by_cases hij' : i ≤ j'
    · exact le_trans (ihj hij' (Nat.lt_of_succ_lt hj)) (h j' hj)
    · have : i = j' + 1 := by omega
      simp [this]

/-! ## Claim theorems for the reconciliation engine -/

/-- C1 (counterexample): the claim says that with a zero cursor and the
only rename event on the last of N pages, `pollRepo` traverses all N
pages and returns that rename event.  At this concrete input (2 pages,
a `Link` header announcing 2 pages, the rename only on page 2) the code
performs a single fetch and returns no events. -/
theorem pollRepo_cold_start_counterexample :
    ¬ ((pollRepo ⟨"", 0⟩
          [.ok "E" (some 2) (.events [⟨10, "push", "i10", "a10"⟩]),
           .ok "" none (.events [⟨5, "renamed", "i5", "a5"⟩])]).fetches = 2 ∧
        (⟨5, "renamed", "i5", "a5"⟩ : Event) ∈
          (pollRepo ⟨"", 0⟩
            [.ok "E" (some 2) (.events [⟨10, "push", "i10", "a10"⟩]),
             .ok "" none (.events [⟨5, "renamed", "i5", "a5"⟩])]).pairs) := by
  decide

/-- C1 (amended): on a zero stored marker, `pollRepo` stops at the very
first record of page 1 (the `lastID == 0` disjunct of the stop condition
fires before any rename is collected), so it performs exactly one fetch,
emits no CandidateEvents at all, and records the first (newest) record's
id as the new marker. -/
theorem pollRepo_zero_cursor (la : LastAccess) (hz : la.eventID = 0)
    (etag : String) (link : Option Nat) (e : Event) (es : List Event)
    (rest : List FetchResult) :
    pollRepo la (.ok etag link (.events (e :: es)) :: rest) =
      ⟨⟨etag, e.id⟩, true, [], 1, [e.id], [1], []⟩ := by
  cases rest <;>
    simp [pollRepo, pollLoop, pollIter, parseResponse, scanEvents, hz]

theorem pollRepo_zero_cursor_witness :
    (⟨"", 0⟩ : LastAccess).eventID = 0 ∧
    pollRepo ⟨"", 0⟩
        [.ok "E" (some 3) (.events [⟨10, "push", "i10", "a10"⟩, ⟨5, "renamed", "i5", "a5"⟩])] =
      ⟨⟨"E", 10⟩, true, [], 1, [10], [1], []⟩ :=
  ⟨rfl, pollRepo_zero_cursor ⟨"", 0⟩ rfl "E" (some 3) ⟨10, "push", "i10", "a10"⟩
    [⟨5, "renamed", "i5", "a5"⟩] []⟩

/-- C2: (a) with a non-zero stored marker, no CandidateEvent whose
marker is ≤ that marker is emitted by a poll cycle; (b) across any
sequence of poll cycles whose durable cursor markers are monotonically
non-decreasing, no marker is emitted by two different cycles — i.e. a
CandidateEvent with marker M is emitted at most once. -/
theorem pollRepo_no_reemission :
    (∀ (la : LastAccess) (w : List FetchResult) (e : Event),
        la.eventID ≠ 0 → e ∈ (pollRepo la w).pairs → la.eventID < e.id) ∧
    (∀ (la0 : LastAccess) (ws : List (List FetchResult)) (i j : Nat) (e p : Event),
        (∀ k, k + 1 < (runCycles la0 ws).length →
          ((runCycles la0 ws).getD k (⟨"", 0⟩, [])).1.eventID ≤
          ((runCycles la0 ws).getD (k + 1) (⟨"", 0⟩, [])).1.eventID) →
        i < j → j < (runCycles la0 ws).length →
        e ∈ ((runCycles la0 ws).getD i (⟨"", 0⟩, [])).2 →
        p ∈ ((runCycles la0 ws).getD j (⟨"", 0⟩, [])).2 →
        e.id ≠ p.id) := by
  constructor
  · intro la w e _ he
    exact ((pollRepo_inv la w).1 e he).1
  · intro la0 ws i j e p hmono hij hj he hp
    have h1 : e.id ≤ ((runCycles la0 ws).getD (i + 1) (⟨"", 0⟩, [])).1.eventID :=
      runCycles_emit_le_next ws la0 i e (lt_of_le_of_lt hij hj) he
    have h2 : ((runCycles la0 ws).getD (i + 1) (⟨"", 0⟩, [])).1.eventID ≤
        ((runCycles la0 ws).getD j (⟨"", 0⟩, [])).1.eventID :=
      mono_chain (fun k => ((runCycles la0 ws).getD k (⟨"", 0⟩, [])).1.eventID)
        (runCycles la0 ws).length hmono (i + 1) j hij hj
    have h3 : ((runCycles la0 ws).getD j (⟨"", 0⟩, [])).1.eventID < p.id :=
      runCycles_emit_gt_start ws la0 j p hp
    omega

theorem pollRepo_no_reemission_witness :
    (⟨"", 1⟩ : LastAccess).eventID ≠ 0 ∧ (1 : Nat) < 5 :=
  ⟨by decide,
    pollRepo_no_reemission.1 ⟨"", 1⟩
      [.ok "E" none (.events [⟨5, "renamed", "i", "a"⟩, ⟨1, "push", "i1", "a1"⟩])]
      ⟨5, "renamed", "i", "a"⟩ (by decide) (by decide)⟩

/-- C3 (counterexample): the claim asserts the marker written to the
cursor is ≥ the marker held before the cycle.  With stored marker 10 and
a page whose only (newest) record has id 5, the cycle completes, stores
the cursor, and writes marker 5 < 10. -/
theorem pollRepo_cursor_decreases_counterexample :
    (pollRepo ⟨"", 10⟩ [.ok "E" none (.events [⟨5, "renamed", "i", "a"⟩])]).stored = true ∧
    (pollRepo ⟨"", 10⟩ [.ok "E" none (.events [⟨5, "renamed", "i", "a"⟩])]).cursor.eventID = 5 ∧
    ¬ (10 : Nat) ≤ 5 := by
  decide

/-- C3 (amended): when a poll cycle completes and stores the cursor, the
marker written equals the running maximum of all markers observed during
the cycle (hence is ≥ each of them); it need not be ≥ the previous
cycle's marker. -/
theorem pollRepo_cursor_runmax (la : LastAccess) (w : List FetchResult)
    (h : (pollRepo la w).stored = true) :
    (pollRepo la w).cursor.eventID = (pollRepo la w).scanned.foldr max 0 ∧
    ∀ m ∈ (pollRepo la w).scanned, m ≤ (pollRepo la w).cursor.eventID := by
  have hmax := (pollRepo_inv la w).2.2.1 h
  exact ⟨hmax, fun m hm => hmax ▸ mem_le_foldr_max _ m hm⟩

theorem pollRepo_cursor_runmax_witness :
    (pollRepo ⟨"", 1⟩ [.ok "E" none (.events [⟨5, "renamed", "i", "a"⟩, ⟨1, "push", "", ""⟩])]).stored = true ∧
    (pollRepo ⟨"", 1⟩ [.ok "E" none (.events [⟨5, "renamed", "i", "a"⟩, ⟨1, "push", "", ""⟩])]).cursor.eventID =
      (pollRepo ⟨"", 1⟩ [.ok "E" none (.events [⟨5, "renamed", "i", "a"⟩, ⟨1, "push", "", ""⟩])]).scanned.foldr max 0 :=
  ⟨by decide,
    (pollRepo_cursor_runmax ⟨"", 1⟩
      [.ok "E" none (.events [⟨5, "renamed", "i", "a"⟩, ⟨1, "push", "", ""⟩])] (by decide)).1⟩

/-- C6: when the conditional request for page 1 answers 304 Not
Modified, the poll performs exactly one fetch, emits no events, does not
store anything, and leaves the cursor exactly as it was (the acquired
page-1 body is closed). -/
theorem pollRepo_not_modified (la : LastAccess) (rest : List FetchResult) :
    pollRepo la (.notModified :: rest) = ⟨la, false, [], 1, [], [1], [1]⟩ := by
  rfl

/-- C8 (counterexample): the claim says every response body acquired
during a pass is released before the pass returns.  On this input the
pass completes normally (early stop on the zero marker), yet the page-1
body is acquired and never closed. -/
theorem pollRepo_body_left_open_counterexample :
    1 ∈ (pollRepo ⟨"", 0⟩ [.ok "E" none (.events [⟨5, "push", "i", "a"⟩])]).acquired ∧
    1 ∉ (pollRepo ⟨"", 0⟩ [.ok "E" none (.events [⟨5, "push", "i", "a"⟩])]).closed := by
  decide

/-- C8 (amended): on every exit path, every acquired response body
except possibly the most recently acquired one has been closed: the
bodies of all pages the loop advanced past are closed (as is the page-1
body on the 304 path), but the body of the final page processed is left
unclosed on the early-stop and parse-error paths. -/
theorem pollRepo_bodies_closed (la : LastAccess) (w : List FetchResult) :
    (pollRepo la w).acquired = (pollRepo la w).closed ∨
    ∃ b, (pollRepo la w).acquired = (pollRepo la w).closed ++ [b] :=
  (pollRepo_inv la w).2.2.2

/-! ## Configuration (config/config.go) and webhook resolution (webhook/server.go) -/

/-- `config.Hook`. -/
structure Hook where
  repo : String
  events : List String
  url : String
  secret : String
  deriving DecidableEq, Repr

/-- `config.Account`. -/
structure Account where
  user : String
  token : String
  hooks : List Hook
  deriving DecidableEq, Repr

/-- The wildcard test of `getWebHookURL` (server.go:54):
`len(hook.Events) == 1 && hook.Events[0] == "*"`. -/
def isWildcard (h : Hook) : Bool :=
  h.events.length == 1 && h.events.getD 0 "" == "*"

/-- The inner hook loop of `getWebHookURL` (server.go:49-63): skip hooks
for other repositories; return on a wildcard subscription or on a
literal event match; otherwise keep scanning. -/
def findHook (repo event : String) : List Hook → Option (String × String)
  | [] => none
  | h :: hs =>
    if h.repo ≠ repo then findHook repo event hs
    else if isWildcard h then some (h.url, h.secret)
    else match h.events.find? (fun e => e == event) with
      | some _ => some (h.url, h.secret)
      | none => findHook repo event hs

/-- `getWebHookURL` (server.go:43-66): scan all accounts, skipping those
whose user differs from the owner; the first matching hook wins; if no
hook matches, `("", "")`. -/
def getWebHookURL (accounts : List Account) (owner repo event : String) : String × String :=
  match accounts with
  | [] => ("", "")
  | acct :: rest =>
    if acct.user ≠ owner then getWebHookURL rest owner repo event
    else match findHook repo event acct.hooks with
      | some p => p
      | none => getWebHookURL rest owner repo event

/-- Spec-side reference for C4: does a hook rule subscribe to `event`
(wildcard, or event literally present)? -/
def hookMatches (event : String) (h : Hook) : Bool :=
  isWildcard h || h.events.any (fun e => e == event)

/-- Spec-side reference for C4: all hook rules, across every account,
whose owner and repository match, in configuration order. -/
def matchingHooks (accounts : List Account) (owner repo : String) : List Hook :=
  match accounts with
  | [] => []
  | acct :: rest =>
    (if acct.user == owner then acct.hooks.filter (fun h => h.repo == repo) else [])
      ++ matchingHooks rest owner repo

/-- The event-list normalization loop of `config.Load`
(config.go:45-61): a list containing `"*"` becomes `["*"]`; an empty
list becomes `["push"]`; anything else is kept. -/
def normalizeHook (h : Hook) : Hook :=
  let containWildcard := h.events.any (fun e => e == "*")
  if containWildcard then { h with events := ["*"] }
  else if h.events.length == 0 then { h with events := ["push"] }
  else h

/-- The final state of `config.Accounts` after a successful
`config.Load` of a decoded account list. -/
def loadNormalize (accounts : List Account) : List Account :=
  accounts.map (fun a => { a with hooks := a.hooks.map normalizeHook })

theorem find?_append {α} (p : α → Bool) (l1 l2 : List α) :
    (l1 ++ l2).find? p =
      match l1.find? p with
      | some x => some x
      | none => l2.find? p := by
  induction l1 with
  | nil => simp
  | cons a l1 ih =>
    cases hp : p a with
    | true => simp [List.find?_cons, hp]
    | false => simp [List.find?_cons, hp, ih]

theorem findHook_eq (repo event : String) (hs : List Hook) :
    findHook repo event hs =
      match (hs.filter (fun h => h.repo == repo)).find? (hookMatches event) with
      | some h => some (h.url, h.secret)
      | none => none := by
  induction hs with
  | nil => rfl
  | cons h hs ih =>
    by_cases hr : h.repo = repo
    · simp only [findHook, hr, ne_eq, not_true_eq_false, if_false,
        List.filter_cons, beq_self_eq_true, if_true]
      by_cases hw : isWildcard h = true
      · have hm : hookMatches event h = true := by simp [hookMatches, hw]
        simp [hw, List.find?_cons, hm]
      · simp only [hw, if_false]
        cases hf : h.events.find? (fun e => e == event) with
        | some x =>
          have hm : hookMatches event h = true := by
            simp only [hookMatches, Bool.or_eq_true]
            right
            have := List.find?_some hf
            have hmem := List.mem_of_find?_eq_some hf
            exact List.any_eq_true.mpr ⟨x, hmem, this⟩
          simp [List.find?_cons, hm]
        | none =>
          have hm : hookMatches event h = false := by
            simp only [hookMatches, Bool.or_eq_false_iff]
            refine ⟨by simpa using hw, ?_⟩
            simp only [List.any_eq_false]
            intro x hx
            simpa using List.find?_eq_none.mp hf x hx
          simp [List.find?_cons, hm, ih]
    · have : (h.repo == repo) = false := by simpa using hr
      simp [findHook, hr, List.filter_cons, this, ih]

/-- C4 (counterexample): the claim says `getWebHookURL` returns every
matching rule, so that an "issues" event on a repository with both a
wildcard rule and an "issues"-scoped rule dispatches to both.  With such
a configuration the function returns only the first rule's endpoint
`"u1"`; the second matching endpoint `"u2"` is never resolved. -/
theorem getWebHookURL_first_only_counterexample :
    getWebHookURL
        [⟨"o", "t", [⟨"r", ["*"], "u1", "s1"⟩, ⟨"r", ["issues"], "u2", "s2"⟩]⟩]
        "o" "r" "issues" = ("u1", "s1") ∧
    hookMatches "issues" ⟨"r", ["issues"], "u2", "s2"⟩ = true ∧
    (getWebHookURL
        [⟨"o", "t", [⟨"r", ["*"], "u1", "s1"⟩, ⟨"r", ["issues"], "u2", "s2"⟩]⟩]
        "o" "r" "issues").1 ≠ "u2" := by
  decide

/-- C4 (amended): `getWebHookURL` resolves exactly one endpoint — the
FIRST rule, in account and hook configuration order, whose owner and
repository match and whose event set is the wildcard or contains the
event — and `("", "")` when no rule matches.  There is no fan-out to
further matching rules. -/
theorem getWebHookURL_first_match (accounts : List Account) (owner repo event : String) :
    getWebHookURL accounts owner repo event =
      match (matchingHooks accounts owner repo).find? (hookMatches event) with
      | some h => (h.url, h.secret)
      | none => ("", "") := by
  induction accounts with
  | nil => rfl
  | cons a rest ih =>
    by_cases hu : a.user = owner
    · have hb : (a.user == owner) = true := by simpa using hu
      simp only [getWebHookURL, matchingHooks, findHook_eq, find?_append]
      rw [if_neg (fun hcon => hcon hu), if_pos hb]
      cases hf : (a.hooks.filter (fun h => h.repo == repo)).find? (hookMatches event) with
      | some h => rfl
      | none => exact ih
    · have hb : (a.user == owner) = false := by simpa using hu
      simp [getWebHookURL, hu, matchingHooks, hb, ih]

/-- C10: after `config.Load`, every hook's event list is non-empty; any
list that contained `"*"` has been replaced by exactly `["*"]` — so the
wildcard test used by `getWebHookURL` recognizes it — and any empty
list has been replaced by `["push"]`. -/
theorem load_normalize_events :
    (∀ (accounts : List Account) (a : Account) (h : Hook),
        a ∈ loadNormalize accounts → h ∈ a.hooks → h.events ≠ []) ∧
    (∀ h : Hook, "*" ∈ h.events →
        (normalizeHook h).events = ["*"] ∧ isWildcard (normalizeHook h) = true) ∧
    (∀ h : Hook, h.events = [] → (normalizeHook h).events = ["push"]) := by
  refine ⟨?_, ?_, ?_⟩
  · intro accounts a h ha hh
    obtain ⟨a0, _, rfl⟩ := List.mem_map.mp ha
    obtain ⟨h0, _, rfl⟩ := List.mem_map.mp hh
    simp only [normalizeHook]
    split
    · simp
    · split
      · simp
      · next hlen =>
        intro hnil
        rw [hnil] at hlen
        simp at hlen
  · intro h hmem
    have hany : h.events.any (fun e => e == "*") = true :=
      List.any_eq_true.mpr ⟨"*", hmem, by simp⟩
    constructor
    · simp [normalizeHook, hany]
    · simp [normalizeHook, hany, isWildcard]
  · intro h hnil
    simp [normalizeHook, hnil]

theorem load_normalize_events_witness :
    (⟨"r", ["push"], "u", "s"⟩ : Hook).events ≠ [] :=
  load_normalize_events.1 [⟨"o", "t", [⟨"r", [], "u", "s"⟩]⟩]
    ⟨"o", "t", [⟨"r", ["push"], "u", "s"⟩]⟩ ⟨"r", ["push"], "u", "s"⟩
    (by decide) (by decide)

/-! ## Inbound relay payload extraction (webhook/server.go) -/

/-- A decoded JSON value, the shape `encoding/json` exposes to
`getRepoNameAndOwner`. -/
inductive Json where
  | null
  | bool (b : Bool)
  | num (n : Int)
  | str (s : String)
  | arr (xs : List Json)
  | obj (fields : List (String × Json))
  deriving Repr

/-- Object field lookup (`event["repository"]` on a
`map[string]json.RawMessage`): first binding wins; a missing key gives
the nil `RawMessage`, whose re-unmarshalling errors. -/
def jsonLookup (key : String) : List (String × Json) → Option Json
  | [] => none
  | (k, v) :: rest => if k = key then some v else jsonLookup key rest

/-- How a Go function call can end: a value, a returned error, or an
uncaught runtime panic. -/
inductive GoResult (α : Type) where
  | ok (a : α)
  | err
  | panicked
  deriving DecidableEq, Repr

/-- Go's `strings.Split` with a one-character separator: always at
least one (possibly empty) segment; `Split("", sep) = [""]`. -/
def splitOnChar (sep : Char) : List Char → List (List Char)
  | [] => [[]]
  | c :: rest =>
    let r := splitOnChar sep rest
    if c = sep then [] :: r
    else
      match r with
      | [] => [[c]]
      | g :: gs => (c :: g) :: gs

/-- `getRepoNameAndOwner` (server.go:18-41).  Input `none` stands for a
payload that is not valid JSON.  Unmarshalling into a
`map[string]json.RawMessage` requires a JSON object; unmarshalling the
`full_name` raw message into a string requires a JSON string; then the
code returns `(fields[1], fields[0])` of `strings.Split(fullname, "/")`
— and `fields[1]` is an out-of-range index (runtime panic) whenever the
full name contains no `"/"`, since `strings.Split` then yields a
one-element slice. -/
def getRepoNameAndOwner (payload : Option Json) : GoResult (String × String) :=
  match payload with
  | none => .err
  | some j =>
    match j with
    | .obj eventFields =>
      match jsonLookup "repository" eventFields with
      | none => .err
      | some rv =>
        match rv with
        | .obj repoFields =>
          match jsonLookup "full_name" repoFields with
          | none => .err
          | some fv =>
            match fv with
            | .str fullname =>
              match splitOnChar '/' fullname.data with
              | [] => .panicked
              | [_] => .panicked
              | a :: b :: _ => .ok (String.mk b, String.mk a)
            | _ => .err
        | _ => .err
    | _ => .err

/-- C7 (failing input): a syntactically valid payload whose
`repository.full_name` contains no `"/"` separator makes
`getRepoNameAndOwner` index `fields[1]` out of range — a runtime panic
escaping the handler — rather than failing silently with a log message.
The error paths the claim describes (malformed JSON, missing or
non-string fields) do return errors. -/
theorem getRepoNameAndOwner_panics_on_no_slash :
    getRepoNameAndOwner
        (some (.obj [("repository", .obj [("full_name", .str "noslash")])])) = .panicked ∧
    getRepoNameAndOwner none = .err ∧
    getRepoNameAndOwner (some (.obj [])) = .err ∧
    getRepoNameAndOwner (some (.obj [("repository", .obj [("full_name", .num 3)])])) = .err ∧
    getRepoNameAndOwner
        (some (.obj [("repository", .obj [("full_name", .str "owner/repo")])])) = .ok ("repo", "owner") :=
  ⟨rfl, rfl, rfl, rfl, rfl⟩

/-! ## HMAC-SHA1 (crypto/hmac, crypto/sha1) — bytes are `Nat < 256`,
32-bit words are `Nat` reduced mod `2^32` wherever overflow matters. -/

/-- Rotate a 32-bit word left by `b` bits. -/
def rotl (b n : Nat) : Nat := ((n <<< b) ||| (n >>> (32 - b))) % 4294967296

/-- The SHA-1 round function (choice / parity / majority / parity). -/
def shaF (t b c d : Nat) : Nat :=
  if t < 20 then (b &&& c) ||| ((b ^^^ 4294967295) &&& d)
  else if t < 40 then b ^^^ c ^^^ d
  else if t < 60 then (b &&& c) ||| (b &&& d) ||| (c &&& d)
  else b ^^^ c ^^^ d

/-- The SHA-1 round constants. -/
def shaK (t : Nat) : Nat :=
  if t < 20 then 1518500249
  else if t < 40 then 1859775393
  else if t < 60 then 2400959708
  else 3395469782

/-- Big-endian bytes of `n`, `k` bytes wide. -/
def beBytes : Nat → Nat → List Nat
  | 0, _ => []
  | k + 1, n => beBytes k (n / 256) ++ [n % 256]

/-- Pack bytes into big-endian 32-bit words. -/
def toWords : List Nat → List Nat
  | b0 :: b1 :: b2 :: b3 :: rest =>
    (((b0 * 256 + b1) * 256 + b2) * 256 + b3) :: toWords rest
  | _ => []

/-- Extend the 16 schedule words by `k` more words. -/
def extendWords (ws : List Nat) : Nat → List Nat
  | 0 => ws
  | k + 1 =>
    let ws' := extendWords ws k
    let n := ws'.length
    ws' ++ [rotl 1 ((ws'.getD (n - 3) 0) ^^^ (ws'.getD (n - 8) 0) ^^^
      (ws'.getD (n - 14) 0) ^^^ (ws'.getD (n - 16) 0))]

/-- One SHA-1 compression round. -/
def sha1Round (w : List Nat) (st : Nat × Nat × Nat × Nat × Nat) (t : Nat) :
    Nat × Nat × Nat × Nat × Nat :=
  match st with
  | (a, b, c, d, e) =>
    ((rotl 5 a + shaF t b c d + e + shaK t + w.getD t 0) % 4294967296,
      a, rotl 30 b, c, d)

/-- Compress one 64-byte chunk into the running state. -/
def sha1Chunk (st : Nat × Nat × Nat × Nat × Nat) (chunk : List Nat) :
    Nat × Nat × Nat × Nat × Nat :=
  let w := extendWords (toWords chunk) 64
  match st, (List.range 80).foldl (sha1Round w) st with
  | (h0, h1, h2, h3, h4), (a, b, c, d, e) =>
    ((h0 + a) % 4294967296, (h1 + b) % 4294967296, (h2 + c) % 4294967296,
      (h3 + d) % 4294967296, (h4 + e) % 4294967296)

/-- Merkle–Damgård padding: `0x80`, zeros to 56 mod 64, then the
bit length as 8 big-endian bytes. -/
def padMsg (msg : List Nat) : List Nat :=
  msg ++ 128 :: List.replicate ((64 + 55 - msg.length % 64) % 64) 0 ++
    beBytes 8 (msg.length * 8)

/-- Split into 64-byte chunks (fuel = list length). -/
def chunksOf64 : Nat → List Nat → List (List Nat)
  | 0, _ => []
  | _, [] => []
  | fuel + 1, l => l.take 64 :: chunksOf64 fuel (l.drop 64)

/-- SHA-1 of a byte sequence (20-byte digest). -/
def sha1 (msg : List Nat) : List Nat :=
  let padded := padMsg msg
  match (chunksOf64 padded.length padded).foldl sha1Chunk
      (1732584193, 4023233417, 2562383102, 271733878, 3285377520) with
  | (a, b, c, d, e) =>
    beBytes 4 a ++ beBytes 4 b ++ beBytes 4 c ++ beBytes 4 d ++ beBytes 4 e

/-- HMAC-SHA1 (block size 64): long keys are hashed, short keys are
zero-padded; inner pad `0x36`, outer pad `0x5c`. -/
def hmacSha1 (key msg : List Nat) : List Nat :=
  let k0 := if 64 < key.length then sha1 key else key
  let kp := k0 ++ List.replicate (64 - k0.length) 0
  sha1 ((kp.map (fun b => b ^^^ 92)) ++ sha1 ((kp.map (fun b => b ^^^ 54)) ++ msg))

/-- Lower-case hex digit. -/
def hexDigit (n : Nat) : Char := Char.ofNat (if n < 10 then 48 + n else 87 + n)

/-- `fmt.Sprintf("%x", bytes)`: lower-case hex, two digits per byte. -/
def bytesToHex (bs : List Nat) : String :=
  String.mk ((bs.map (fun b => [hexDigit (b / 16), hexDigit (b % 16)])).flatten)

/-- UTF-8 encoding of one character. -/
def charUtf8 (c : Char) : List Nat :=
  let n := c.toNat
  if n < 128 then [n]
  else if n < 2048 then [192 + n / 64, 128 + n % 64]
  else if n < 65536 then [224 + n / 4096, 128 + (n / 64) % 64, 128 + n % 64]
  else [240 + n / 262144, 128 + (n / 4096) % 64, 128 + (n / 64) % 64, 128 + n % 64]

/-- The bytes of a Go string (`[]byte(s)`). -/
def strBytes (s : String) : List Nat := (s.data.map charUtf8).flatten

set_option maxRecDepth 20000 in
/-- Cross-check of the whole HMAC-SHA1 stack against an independently
computed vector: the design document's example, secret `"s3cret"` and
payload `{"a":1}`. -/
theorem hmacSha1_reference_vector :
    bytesToHex (hmacSha1 (strBytes "s3cret") (strBytes "\x7b\"a\":1\x7d")) =
      "79999786a1bff10cd4d7dd0b0752574af76be0b5" := by
  decide

/-! ## Outbound rename-webhook dispatch (webhook/trigger.go) -/

/-- The observable content of one outbound POST
(`TriggerIssueRenamedWebHook`, trigger.go:77-92): method, target,
headers, the exact body bytes handed to `bytes.NewReader`, and the
optional `X-Hub-Signature` header. -/
structure Envelope where
  method : String
  url : String
  userAgent : String
  contentType : String
  accept : String
  eventHeader : String
  deliveryId : String
  body : String
  signature : Option String
  deriving DecidableEq, Repr

/-- The payload `fmt.Sprintf` of trigger.go:72-75. -/
def mkPayload (issue repoContent actor : String) : String :=
  "\x7b\"action\":\"updated\",\"issue\":" ++ issue ++ ",\"repository\":" ++
    repoContent ++ ",\"sender\":" ++ actor ++ "\x7d"

/-- One delivery (trigger.go:77-92): the signature header is attached
only when the secret is non-empty, and is computed over the same
`payload` string whose bytes form the POST body. -/
def mkDelivery (url secret payload uuid : String) : Envelope :=
  { method := "POST", url := url, userAgent := "hooksim",
    contentType := "application/json", accept := "*/*",
    eventHeader := "issues", deliveryId := uuid, body := payload,
    signature :=
      if secret ≠ "" then
        some ("sha1=" ++ bytesToHex (hmacSha1 (strBytes secret) (strBytes payload)))
      else none }

/-- The delivery loop of `TriggerIssueRenamedWebHook` (trigger.go:71):
one envelope per renamed issue, each with a freshly fetched repository
metadata object (`repoContents k`) and a fresh delivery id (`uuids k`). -/
def triggerLoop (url secret : String) (repoContents uuids : Nat → String) :
    List (String × String) → Nat → List Envelope
  | [], _ => []
  | pr :: rest, k =>
    mkDelivery url secret (mkPayload pr.1 (repoContents k) pr.2) (uuids k) ::
      triggerLoop url secret repoContents uuids rest (k + 1)

/-- `TriggerIssueRenamedWebHook` (trigger.go:65-103): resolve the
endpoint for the `"issues"` event; if none is configured, do nothing;
otherwise send one signed POST per renamed issue.  `renamedIssues`
carries the raw `(issue, actor)` byte pairs. -/
def triggerIssueRenamedWebHook (accounts : List Account) (owner repo : String)
    (renamedIssues : List (String × String)) (repoContents uuids : Nat → String) :
    List Envelope :=
  match getWebHookURL accounts owner repo "issues" with
  | (url, secret) =>
    if url = "" then []
    else triggerLoop url secret repoContents uuids renamedIssues 0

theorem triggerLoop_mem (url secret : String) (repoContents uuids : Nat → String) :
    ∀ (prs : List (String × String)) (k : Nat) (env : Envelope),
      env ∈ triggerLoop url secret repoContents uuids prs k →
      ∃ payload uuid, env = mkDelivery url secret payload uuid := by
  intro prs
  induction prs with
  | nil => intro k env h; simp [triggerLoop] at h
  | cons pr rest ih =>
    intro k env h
    rcases List.mem_cons.mp h with h | h
    · exact ⟨_, _, h⟩
    · exact ih (k + 1) env h

/-- C5: for every outbound dispatch of a synthesized rename webhook, the
`X-Hub-Signature` header is attached iff the resolved secret is
non-empty, and when attached it equals `"sha1="` followed by the
lower-case hex HMAC-SHA1, keyed by that secret, of exactly the byte
sequence transmitted as the POST body. -/
theorem trigger_signature (accounts : List Account) (owner repo : String)
    (renamedIssues : List (String × String)) (repoContents uuids : Nat → String)
    (env : Envelope)
    (hmem : env ∈ triggerIssueRenamedWebHook accounts owner repo renamedIssues repoContents uuids) :
    (env.signature.isSome ↔ (getWebHookURL accounts owner repo "issues").2 ≠ "") ∧
    (∀ sg, env.signature = some sg →
      sg = "sha1=" ++ bytesToHex (hmacSha1
        (strBytes (getWebHookURL accounts owner repo "issues").2) (strBytes env.body))) := by
  simp only [triggerIssueRenamedWebHook] at hmem
  split at hmem
  · simp at hmem
  · obtain ⟨payload, uuid, rfl⟩ :=
      triggerLoop_mem _ _ repoContents uuids renamedIssues 0 env hmem
    by_cases hs : (getWebHookURL accounts owner repo "issues").2 = ""
    · constructor
      · simp [mkDelivery, hs]
      · intro sg hsg
        simp [mkDelivery, hs] at hsg
    · constructor
      · simp [mkDelivery, hs]
      · intro sg hsg
        simp only [mkDelivery, if_pos hs, Option.some.injEq] at hsg
        simp [mkDelivery, ← hsg]

theorem trigger_signature_witness :
    (mkDelivery "http://u" "k" (mkPayload "1" "\x7b\x7d" "2") "uuid0").signature.isSome ↔
      (getWebHookURL [⟨"o", "t", [⟨"r", ["issues"], "http://u", "k"⟩]⟩] "o" "r" "issues").2 ≠ "" :=
  (trigger_signature [⟨"o", "t", [⟨"r", ["issues"], "http://u", "k"⟩]⟩] "o" "r"
    [("1", "2")] (fun _ => "\x7b\x7d") (fun _ => "uuid0")
    (mkDelivery "http://u" "k" (mkPayload "1" "\x7b\x7d" "2") "uuid0")
    (List.mem_singleton.mpr rfl)).1

/-! ## Cursor persistence (poller.go:219-259)

The data directory is modelled as a map from `(owner, repo)` to the
stored file content; `storeLastAccess` writes the two-line record and
`restoreLastAccess` parses it back, degrading to the zero cursor on any
failure. -/

/-- The character set of `strings.Trim(s, "\n ")`. -/
def isTrimChar (c : Char) : Bool := c == '\n' || c == ' '

/-- `strings.Trim(s, "\n ")`: strip leading and trailing newlines and
spaces. -/
def trimNLSpace (l : List Char) : List Char :=
  ((l.dropWhile isTrimChar).reverse.dropWhile isTrimChar).reverse

/-- `bytes.Buffer.ReadString('\n')`: the prefix up to and including the
first newline, plus the remainder; `none` when no newline remains (Go
reports `io.EOF` and the caller treats it as failure). -/
def readLineNL : List Char → Option (List Char × List Char)
  | [] => none
  | c :: cs =>
    if c = '\n' then some ([c], cs)
    else
      match readLineNL cs with
      | some (l, r) => some (c :: l, r)
      | none => none

/-- `strconv.ParseUint(s, 10, 64)`: a non-empty all-digit string whose
value fits in a `uint64`. -/
def parseUInt64 (l : List Char) : Option Nat :=
  if l = [] then none
  else if l.all (fun c => c.isDigit) then
    let v := l.foldl (fun a c => a * 10 + (c.toNat - 48)) 0
    if v < 18446744073709551616 then some v else none
  else none

/-- Decimal digits of `n`, most significant first (fuel-based;
`fuel ≥ n` suffices, and `n = 0` gives `[]`). -/
def decDigitsAux : Nat → Nat → List Char
  | 0, _ => []
  | fuel + 1, n =>
    if n = 0 then []
    else decDigitsAux fuel (n / 10) ++ [Char.ofNat (48 + n % 10)]

/-- `fmt.Sprintf("%v", n)` for an unsigned integer: plain decimal. -/
def natToDecString (n : Nat) : String :=
  if n = 0 then "0" else String.mk (decDigitsAux n n)

/-- The data directory: one record per `(owner, repo)` key. -/
def Storage : Type := (String × String) → Option String

/-- `storeLastAccess` (poller.go:245-259): write
`fmt.Sprintf("%v\n%v\n", a.ETag, a.EventID)` under `(owner, repo)`. -/
def storeLastAccess (fs : Storage) (owner repo : String) (a : LastAccess) : Storage :=
  fun k =>
    if k = (owner, repo) then
      some (a.etag ++ "\n" ++ natToDecString a.eventID ++ "\n")
    else fs k

/-- `restoreLastAccess` (poller.go:219-243): read the record, take the
first line (trimmed of `"\n "`) as the validator and the second line
(trimmed, parsed as a decimal `uint64`) as the marker; any failure
yields the zero cursor. -/
def restoreLastAccess (fs : Storage) (owner repo : String) : LastAccess :=
  match fs (owner, repo) with
  | none => ⟨"", 0⟩
  | some content =>
    match readLineNL content.data with
    | none => ⟨"", 0⟩
    | some (l1, r1) =>
      let etag := trimNLSpace l1
      match readLineNL r1 with
      | none => ⟨"", 0⟩
      | some (l2, _) =>
        match parseUInt64 (trimNLSpace l2) with
        | none => ⟨"", 0⟩
        | some id => ⟨String.mk etag, id⟩

/-! ## Round-trip lemmas for the cursor record -/

theorem length_dropWhile_le (p : Char → Bool) (l : List Char) :
    (l.dropWhile p).length ≤ l.length := by
  induction l with
  | nil => simp
  | cons c cs ih =>
    by_cases hp : p c = true
    · simp only [List.dropWhile_cons, hp, if_true]
      exact le_trans ih (Nat.le_succ _)
    · simp [List.dropWhile_cons, hp]

theorem dropWhile_eq_self_of_length (p : Char → Bool) (l : List Char)
    (h : (l.dropWhile p).length = l.length) : l.dropWhile p = l := by
  induction l with
  | nil => rfl
  | cons c cs ih =>
    by_cases hp : p c = true
    · exfalso
      simp only [List.dropWhile_cons, hp, if_true] at h
      have := length_dropWhile_le p cs
      simp [h] at this
    · simp [List.dropWhile_cons, hp]

theorem trim_self_dropWhile (l : List Char) (h : trimNLSpace l = l) :
    l.dropWhile isTrimChar = l ∧ l.reverse.dropWhile isTrimChar = l.reverse := by
  have hlen1 : ((l.dropWhile isTrimChar).reverse.dropWhile isTrimChar).length ≤
      (l.dropWhile isTrimChar).length := by
    simpa using length_dropWhile_le isTrimChar (l.dropWhile isTrimChar).reverse
  have hlen2 : (l.dropWhile isTrimChar).length ≤ l.length := length_dropWhile_le _ _
  have hlen0 : (trimNLSpace l).length = l.length := by rw [h]
  have hlen0' : ((l.dropWhile isTrimChar).reverse.dropWhile isTrimChar).length = l.length := by
    simpa [trimNLSpace] using hlen0
  have he1 : l.dropWhile isTrimChar = l :=
    dropWhile_eq_self_of_length _ _ (le_antisymm hlen2 (by omega))
  refine ⟨he1, ?_⟩
  have : trimNLSpace l = (l.reverse.dropWhile isTrimChar).reverse := by
    rw [trimNLSpace, he1]
  rw [this] at h
  have := congrArg List.reverse h
  simpa using this

theorem dropWhile_eq_self_of_none (p : Char → Bool) (l : List Char)
    (h : ∀ c ∈ l, p c = false) : l.dropWhile p = l := by
  cases l with
  | nil => rfl
  | cons c cs => simp [List.dropWhile_cons, h c (List.mem_cons_self c cs)]

theorem readLineNL_append (l r : List Char) (h : '\n' ∉ l) :
    readLineNL (l ++ '\n' :: r) = some (l ++ ['\n'], r) := by
  induction l with
  | nil => simp [readLineNL]
  | cons c cs ih =>
    have hc : ¬ c = '\n' := fun hc => h (hc ▸ List.mem_cons_self c cs)
    have hcs : '\n' ∉ cs := fun hm => h (List.mem_cons_of_mem c hm)
    simp [readLineNL, hc, ih hcs]

theorem trim_append_newline (l : List Char)
    (h1 : l.dropWhile isTrimChar = l) (h2 : l.reverse.dropWhile isTrimChar = l.reverse) :
    trimNLSpace (l ++ ['\n']) = l := by
  cases l with
  | nil => rfl
  | cons c cs =>
    have hc : isTrimChar c = false := by
      by_contra hcon
      have hc' : isTrimChar c = true := by
        cases hq : isTrimChar c
        · exact absurd hq hcon
        · rfl
      simp [List.dropWhile_cons, hc'] at h1
      have := length_dropWhile_le isTrimChar cs
      rw [h1] at this
      simp at this
    have hstep : (c :: cs ++ ['\n']).dropWhile isTrimChar = c :: cs ++ ['\n'] := by
      simp [List.dropWhile_cons, hc]
    rw [trimNLSpace, hstep]
    have hrev : (c :: cs ++ ['\n']).reverse = '\n' :: (c :: cs).reverse := by
      simp
    rw [hrev]
    have hnl : isTrimChar '\n' = true := by decide
    rw [List.dropWhile_cons, if_pos hnl, h2]
    simp

theorem digitChar_spec (d : Nat) (hd : d < 10) :
    (Char.ofNat (48 + d)).isDigit = true ∧ isTrimChar (Char.ofNat (48 + d)) = false ∧
      (Char.ofNat (48 + d)).toNat = 48 + d ∧ ¬ Char.ofNat (48 + d) = '\n' := by
  interval_cases d <;> exact ⟨by decide, by decide, by decide, by decide⟩

theorem decDigitsAux_mem (fuel : Nat) :
    ∀ (n : Nat) (c : Char), c ∈ decDigitsAux fuel n → ∃ d, d < 10 ∧ c = Char.ofNat (48 + d) := by
  induction fuel with
  | zero => intro n c hc; simp [decDigitsAux] at hc
  | succ fuel ih =>
    intro n c hc
    by_cases hn : n = 0
    · simp [decDigitsAux, hn] at hc
    · simp only [decDigitsAux, hn, if_false, List.mem_append] at hc
      rcases hc with hc | hc
      · exact ih _ c hc
      · refine ⟨n % 10, Nat.mod_lt _ (by norm_num), ?_⟩
        simpa using hc

theorem decDigitsAux_ne_nil (fuel n : Nat) (hn : n ≠ 0) :
    decDigitsAux (fuel + 1) n ≠ [] := by
  simp [decDigitsAux, hn]

theorem decDigitsAux_foldl (fuel : Nat) :
    ∀ (n acc : Nat), n ≤ fuel →
      List.foldl (fun a c => a * 10 + (c.toNat - 48)) acc (decDigitsAux fuel n) =
        acc * 10 ^ (decDigitsAux fuel n).length + n := by
  induction fuel with
  | zero =>
    intro n acc hf
    have : n = 0 := Nat.le_zero.mp hf
    simp [decDigitsAux, this]
  | succ fuel ih =>
    intro n acc hf
    by_cases hn : n = 0
    · simp [decDigitsAux, hn]
    · have hdiv : n / 10 ≤ fuel := by
        have : n / 10 < n := Nat.div_lt_self (Nat.pos_of_ne_zero hn) (by norm_num)
        omega
      have hmod : n % 10 < 10 := Nat.mod_lt _ (by norm_num)
      have htn : (Char.ofNat (48 + n % 10)).toNat = 48 + n % 10 := (digitChar_spec _ hmod).2.2.1
      simp only [decDigitsAux, hn, if_false, List.foldl_append, List.foldl_cons,
        List.foldl_nil, List.length_append, List.length_cons, List.length_nil]
      rw [ih (n / 10) acc hdiv, htn]
      have hsub : 48 + n % 10 - 48 = n % 10 := by omega
      rw [hsub]
      have hdm : 10 * (n / 10) + n % 10 = n := Nat.div_add_mod n 10
      rw [pow_succ, ← Nat.mul_assoc]
      generalize acc * 10 ^ (decDigitsAux fuel (n / 10)).length = Q
      omega

theorem natToDecString_digits (n : Nat) :
    ∀ c ∈ (natToDecString n).data, ∃ d, d < 10 ∧ c = Char.ofNat (48 + d) := by
  intro c hc
  by_cases hn : n = 0
  · simp [natToDecString, hn] at hc
    exact ⟨0, by norm_num, by simp [hc]⟩
  · simp only [natToDecString, hn, if_false] at hc
    exact decDigitsAux_mem n n c hc

theorem parseUInt64_natToDecString (n : Nat) (h : n < 18446744073709551616) :
    parseUInt64 (natToDecString n).data = some n := by
  by_cases hn : n = 0
  · subst hn
    decide
  · have hne : (natToDecString n).data ≠ [] := by
      simp only [natToDecString, hn, if_false]
      cases n with
      | zero => exact absurd rfl hn
      | succ m => exact decDigitsAux_ne_nil m (m + 1) hn
    have hall : (natToDecString n).data.all (fun c => c.isDigit) = true := by
      rw [List.all_eq_true]
      intro c hc
      obtain ⟨d, hd, rfl⟩ := natToDecString_digits n c hc
      exact (digitChar_spec d hd).1
    have hval : (natToDecString n).data.foldl (fun a c => a * 10 + (c.toNat - 48)) 0 = n := by
      simp only [natToDecString, hn, if_false]
      have := decDigitsAux_foldl n n 0 (le_refl n)
      simpa using this
    simp [parseUInt64, hne, hall, hval, h]

/-- C9 (counterexample): the claim asserts the round trip for every
Cursor value.  A validator with a leading space is trimmed on load
(`strings.Trim(etag, "\n ")`), so storing `" x"` loads back `"x"`. -/
theorem storeRestore_trim_counterexample :
    restoreLastAccess (storeLastAccess (fun _ => none) "o" "r" ⟨" x", 1⟩) "o" "r" = ⟨"x", 1⟩ ∧
    ¬ (⟨"x", 1⟩ : LastAccess) = ⟨" x", 1⟩ := by
  constructor
  · decide
  · decide

/-- C9 (amended): for every `(owner, repo)` and every Cursor whose
validator contains no newline and carries no leading or trailing
trimmable characters (so it survives `strings.Trim(·, "\n ")`; in
particular the empty validator and ordinary quoted ETags), and whose
marker fits in a `uint64`, storing then loading for the same
`(owner, repo)` returns the Cursor unchanged, via the two-line record
format (line 1 = validator, line 2 = decimal marker). -/
theorem storeRestore_roundtrip (fs : Storage) (owner repo : String) (a : LastAccess)
    (hnl : '\n' ∉ a.etag.data)
    (htr : trimNLSpace a.etag.data = a.etag.data)
    (hlt : a.eventID < 18446744073709551616) :
    restoreLastAccess (storeLastAccess fs owner repo a) owner repo = a := by
  obtain ⟨hd1, hd2⟩ := trim_self_dropWhile _ htr
  have hdig := natToDecString_digits a.eventID
  have hdignl : '\n' ∉ (natToDecString a.eventID).data := by
    intro hm
    obtain ⟨d, hd, hEq⟩ := hdig _ hm
    exact (digitChar_spec d hd).2.2.2 hEq.symm
  have hdigtrim : ∀ c ∈ (natToDecString a.eventID).data, isTrimChar c = false := by
    intro c hc
    obtain ⟨d, hd, rfl⟩ := hdig c hc
    exact (digitChar_spec d hd).2.1
  have hdigtrimrev : ∀ c ∈ (natToDecString a.eventID).data.reverse, isTrimChar c = false := by
    intro c hc
    exact hdigtrim c (List.mem_reverse.mp hc)
  have hdata : (a.etag ++ "\n" ++ natToDecString a.eventID ++ "\n").data =
      a.etag.data ++ '\n' :: ((natToDecString a.eventID).data ++ '\n' :: []) := by
    simp [String.data_append]
  have hstore : storeLastAccess fs owner repo a (owner, repo) =
      some (a.etag ++ "\n" ++ natToDecString a.eventID ++ "\n") := by
    simp [storeLastAccess]
  simp only [restoreLastAccess, hstore, hdata, readLineNL_append _ _ hnl,
    readLineNL_append _ _ hdignl,
    trim_append_newline _ (dropWhile_eq_self_of_none _ _ hdigtrim)
      (dropWhile_eq_self_of_none _ _ hdigtrimrev),
    trim_append_newline _ hd1 hd2,
    parseUInt64_natToDecString _ hlt]

theorem storeRestore_roundtrip_witness :
    restoreLastAccess (storeLastAccess (fun _ => none) "o" "r" ⟨"", 0⟩) "o" "r" = ⟨"", 0⟩ ∧
    restoreLastAccess (storeLastAccess (fun _ => none) "o" "r" ⟨"W/\"abc\"", 42⟩) "o" "r" =
      ⟨"W/\"abc\"", 42⟩ :=
  ⟨storeRestore_roundtrip _ "o" "r" ⟨"", 0⟩ (by decide) (by decide) (by decide),
   storeRestore_roundtrip _ "o" "r" ⟨"W/\"abc\"", 42⟩ (by decide) (by decide) (by decide)⟩

end Hooksim
